import Mathlib

/-!
Verification of the deterministic rule engine and message resolver
(src/engine/rule_engine.py and src/engine/message_resolver.py).

The Python values flowing through the engine (JSON scalars, lists and
dicts) are embedded as the inductive type `Value`; Python dicts are
ordered association lists.  Strings use Lean `String`, with ASCII models
of str.lower / str.strip.  The recursive condition evaluator takes a
fuel parameter that is spent only when a condition-template reference is
expanded; running out of fuel models Python's RecursionError (an
exception), which the rule loop catches.  Exceptions are modelled with
`Except Unit`.
-/

set_option maxHeartbeats 1000000

namespace GandA

/-- JSON-like values as passed around by the Python code.  Dicts are
ordered association lists (Python dicts preserve insertion order). -/
inductive Value where
  | vnull : Value
  | vbool : Bool → Value
  | vint : Int → Value
  | vstr : String → Value
  | vlist : List Value → Value
  | vdict : List (String × Value) → Value

/-- Python identity test v is None (only None is None). -/
def isNone : Value → Bool
  | .vnull => true
  | _ => false

/-- Contexts are string-keyed dicts of values. -/
abbrev Ctx := List (String × Value)

/-- Data-source results: source name to result mapping. -/
abbrev DataSources := List (String × Ctx)

/-- Python dict .get lookup on an ordered association list. -/
def alistGet {α : Type} (d : List (String × α)) (k : String) : Option α :=
  match d with
  | [] => none
  | (j, v) :: rest => if j == k then some v else alistGet rest k

mutual
/-- Python == on values.  Booleans and integers compare across kinds
(True == 1, False == 0); dict equality is modelled entrywise on the
ordered association lists. -/
def pyEq : Value → Value → Bool
  | .vnull, .vnull => true
  | .vbool a, .vbool b => a == b
  | .vbool a, .vint n => (if a then (1 : Int) else 0) == n
  | .vint n, .vbool a => n == (if a then (1 : Int) else 0)
  | .vint a, .vint b => a == b
  | .vstr a, .vstr b => a == b
  | .vlist a, .vlist b => pyEqList a b
  | .vdict a, .vdict b => pyEqDict a b
  | _, _ => false

/-- Elementwise Python == on lists. -/
def pyEqList : List Value → List Value → Bool
  | [], [] => true
  | a :: xs, b :: ys => pyEq a b && pyEqList xs ys
  | _, _ => false

/-- Entrywise Python == on dicts (as ordered association lists). -/
def pyEqDict : List (String × Value) → List (String × Value) → Bool
  | [], [] => true
  | (k, a) :: xs, (j, b) :: ys => k == j && pyEq a b && pyEqDict xs ys
  | _, _ => false
end

/-- Python bool(v) truthiness. -/
def pyTruthy : Value → Bool
  | .vnull => false
  | .vbool b => b
  | .vint n => n != 0
  | .vstr s => s != ""
  | .vlist l => !l.isEmpty
  | .vdict d => !d.isEmpty

/-- Python str(v).  Scalars are rendered exactly; the engine never needs
container rendering on the verified paths, so containers are rendered as
fixed markers. -/
def pyStr : Value → String
  | .vnull => "None"
  | .vbool true => "True"
  | .vbool false => "False"
  | .vint n => toString n
  | .vstr s => s
  | .vlist _ => "[...]"
  | .vdict _ => "\x7b...\x7d"

/-- ASCII lower-casing of a single character, as Python str.lower acts on
ASCII letters. -/
def lowerChar (c : Char) : Char :=
  if 65 ≤ c.toNat ∧ c.toNat ≤ 90 then Char.ofNat (c.toNat + 32) else c

/-- Python str.lower (ASCII model). -/
def strLower (s : String) : String := ⟨s.data.map lowerChar⟩

/-- Python str.strip on a character list: drop leading and trailing
whitespace. -/
def trimChars (l : List Char) : List Char :=
  (l.dropWhile Char.isWhitespace).rdropWhile Char.isWhitespace

/-- Python str.strip. -/
def strTrim (s : String) : String := ⟨trimChars s.data⟩

/-- RuleEngine._normalize: None passes through, booleans pass through,
strings are lower-cased then stripped with the literals true/false
coerced to booleans, everything else passes through. -/
def normalize : Value → Value
  | .vnull => .vnull
  | .vbool b => .vbool b
  | .vstr s =>
    let low := strTrim (strLower s)
    if low == "true" then .vbool true
    else if low == "false" then .vbool false
    else .vstr low
  | v => v

/-- RuleEngine._compare: compare actual against expected using the
operator string. -/
def compare (actual expected : Value) (op : String) : Bool :=
  if op == "eq" || op == "equals" then
    pyEq (normalize actual) (normalize expected)
  else if op == "neq" || op == "not_equals" then
    !pyEq (normalize actual) (normalize expected)
  else if op == "in" then
    match expected with
    | .vlist es => (es.map normalize).any (fun e => pyEq (normalize actual) e)
    | _ => pyEq (normalize actual) (normalize expected)
  else if op == "not_in" then
    match expected with
    | .vlist es => !(es.map normalize).any (fun e => pyEq (normalize actual) e)
    | _ => !pyEq (normalize actual) (normalize expected)
  else if op == "is_empty" then
    pyEq actual .vnull || pyEq actual (.vstr "") || pyEq actual (.vlist []) ||
      pyEq actual (.vbool false) || pyEq actual (.vint 0)
  else if op == "is_not_empty" then
    !(pyEq actual .vnull || pyEq actual (.vstr "") || pyEq actual (.vlist []) ||
      pyEq actual (.vbool false) || pyEq actual (.vint 0))
  else if op == "exists_with_value" then
    !isNone actual && !pyEq actual (.vstr "") && !pyEq actual (.vlist [])
  else if op == "is_empty_or_false" then
    pyEq actual .vnull || pyEq actual (.vstr "") || pyEq actual (.vlist []) ||
      pyEq actual (.vbool false) || pyEq actual (.vint 0) ||
      pyEq actual (.vstr "false") || pyEq actual (.vstr "False")
  else
    false

/-- Python str.split(".") on a character list (single-character
separator, no maxsplit). -/
def splitDot : List Char → List (List Char)
  | [] => [[]]
  | c :: rest =>
    if c = '.' then [] :: splitDot rest
    else
      match splitDot rest with
      | [] => [[c]]
      | p :: ps => (c :: p) :: ps

/-- Inner loop of RuleEngine._get_field: walk the dotted path through
nested dicts; on any missing segment fall back to the flat lookup of the
last path segment in the original context. -/
def getFieldGo (context : Ctx) (lastSeg : String) :
    Value → List (List Char) → Value
  | current, [] => current
  | current, part :: rest =>
    match current with
    | .vdict d =>
      match alistGet d (String.mk part) with
      | some v => getFieldGo context lastSeg v rest
      | none => (alistGet context lastSeg).getD .vnull
    | _ => (alistGet context lastSeg).getD .vnull

/-- RuleEngine._get_field: flat key first, then dotted-path descent, with
last-segment fallback. -/
def getField (context : Ctx) (field : String) : Value :=
  match alistGet context field with
  | some v => v
  | none =>
    let parts := splitDot field.data
    let lastSeg := String.mk (parts.getLastD [])
    getFieldGo context lastSeg (.vdict context) parts

/-- RuleEngine._evaluate_condition.  The arguments mirror
cond.get("op", "eq"), cond.get("source"), cond.get("field"),
cond.get("val"). -/
def evaluateCondition (context : Ctx) (ds : DataSources)
    (condOp : Option String) (condSource : Option String)
    (condField : Option String) (condVal : Option Value) : Bool :=
  let op := condOp.getD "eq"
  match condSource, condField with
  | some sourceName, none =>
    let sourceData := (alistGet ds sourceName).getD []
    if op == "is_not_empty" then
      !sourceData.isEmpty && sourceData.any (fun kv =>
        !(pyEq kv.2 .vnull || pyEq kv.2 (.vstr "") || pyEq kv.2 (.vlist [])))
    else if op == "is_empty" then
      sourceData.isEmpty || sourceData.all (fun kv =>
        pyEq kv.2 .vnull || pyEq kv.2 (.vstr "") || pyEq kv.2 (.vlist []))
    else
      !sourceData.isEmpty
  | some sourceName, some field =>
    let sourceData := (alistGet ds sourceName).getD []
    let actual := (alistGet sourceData field).getD .vnull
    compare actual (condVal.getD .vnull) op
  | none, _ =>
    let field := condField.getD ""
    let actual := getField context field
    compare actual (condVal.getD .vnull) op

/-- A condition block, as dispatched by RuleEngine._evaluate_block: a
template reference, an all/any/not combinator, or a single leaf
condition.  The Python code inspects dict keys in this order; the
embedding uses a closed sum.  A leaf with all fields absent models the
default empty condition dict. -/
inductive CondBlock where
  | useTemplate : String → CondBlock
  | allB : List CondBlock → CondBlock
  | anyB : List CondBlock → CondBlock
  | notB : CondBlock → CondBlock
  | leaf : Option String → Option String → Option String → Option Value → CondBlock

/-- The condition-template registry: template name to condition block. -/
abbrev Templates := List (String × CondBlock)

/-- Python all(...) over a generator of child evaluations: short-circuit
on the first false; an exception in a child propagates. -/
def evaluateAllWith (f : CondBlock → Except Unit Bool) :
    List CondBlock → Except Unit Bool
  | [] => .ok true
  | c :: cs => do
    let v ← f c
    if v then evaluateAllWith f cs else pure false

/-- Python any(...) over a generator of child evaluations: short-circuit
on the first true; an exception in a child propagates. -/
def evaluateAnyWith (f : CondBlock → Except Unit Bool) :
    List CondBlock → Except Unit Bool
  | [] => .ok false
  | c :: cs => do
    let v ← f c
    if v then pure true else evaluateAnyWith f cs

/-- RuleEngine._evaluate_block.  The fuel parameter models the Python
recursion stack: one unit per nested recursive call; `Except.error ()`
models a Python exception (RecursionError when recursion runs too deep —
notably on condition-template cycles, which the code does not check
for). -/
def evaluateBlock (tm : Templates) (context : Ctx) (ds : DataSources) :
    Nat → CondBlock → Except Unit Bool
  | 0, _ => .error ()
  | fuel + 1, b =>
    match b with
    | .useTemplate name =>
      match alistGet tm name with
      | none => .ok false
      | some t => evaluateBlock tm context ds fuel t
    | .allB cs => evaluateAllWith (fun c => evaluateBlock tm context ds fuel c) cs
    | .anyB cs => evaluateAnyWith (fun c => evaluateBlock tm context ds fuel c) cs
    | .notB c => do
      let v ← evaluateBlock tm context ds fuel c
      pure (!v)
    | .leaf condOp condSource condField condVal =>
      .ok (evaluateCondition context ds condOp condSource condField condVal)

/-- A sub-rule: sub.get("id"), sub.get("conditions", default empty),
sub.get("message_ref"), sub.get("placeholders"). -/
structure SubRule where
  id : Option String
  conditions : CondBlock
  message_ref : Option String
  placeholders : Option (List String)

/-- A rule dict.  Optional fields mirror the .get defaults used by the
code: id default unknown, priority default 999, active default True,
placeholders and tags default empty, sub_rules default empty. -/
structure Rule where
  id : Option String
  name : Option String
  priority : Option Int
  active : Option Bool
  conditions : CondBlock
  message_ref : Option String
  placeholders : Option (List String)
  tags : Option (List String)
  sub_rules : List SubRule

/-- The dict returned by RuleEngine.evaluate on a match. -/
structure MatchResult where
  rule_id : String
  parent_rule_id : Option String
  name : String
  message_ref : Option String
  placeholders : List String
  priority : Option Int
  tags : List String
deriving DecidableEq

/-- rule.get("priority", 999), the sort key. -/
def rulePriority (r : Rule) : Int := r.priority.getD 999

/-- r.get("active", True), the load-time filter. -/
def isActive (r : Rule) : Bool := r.active.getD true

/-- The match dict built when a sub-rule fires: the sub-rule's id (parent
id if absent), the parent recorded in parent_rule_id, message_ref and
placeholders taken from the sub-rule when present, else inherited. -/
def subResult (ruleId : String) (rule : Rule) (sub : SubRule) : MatchResult :=
  { rule_id := sub.id.getD ruleId
    parent_rule_id := some ruleId
    name := rule.name.getD ""
    message_ref := match sub.message_ref with
      | some v => some v
      | none => rule.message_ref
    placeholders := sub.placeholders.getD (rule.placeholders.getD [])
    priority := rule.priority
    tags := rule.tags.getD [] }

/-- The match dict built for a rule-level match (no parent_rule_id;
message_ref defaults to the empty string). -/
def parentResult (ruleId : String) (rule : Rule) : MatchResult :=
  { rule_id := ruleId
    parent_rule_id := none
    name := rule.name.getD ""
    message_ref := some (rule.message_ref.getD "")
    placeholders := rule.placeholders.getD []
    priority := rule.priority
    tags := rule.tags.getD [] }

/-- The sub-rule loop inside RuleEngine.evaluate: evaluate each sub-rule
in declaration order, returning the first match; exceptions propagate to
the per-rule handler. -/
def firstSubMatch (tm : Templates) (context : Ctx) (ds : DataSources)
    (fuel : Nat) (ruleId : String) (rule : Rule) :
    List SubRule → Except Unit (Option MatchResult)
  | [] => .ok none
  | sub :: rest => do
    let v ← evaluateBlock tm context ds fuel sub.conditions
    if v then
      pure (some (subResult ruleId rule sub))
    else
      firstSubMatch tm context ds fuel ruleId rule rest

/-- The body of the per-rule try block in RuleEngine.evaluate: evaluate
the rule's conditions; on a match check sub_rules, returning the first
matching sub-rule or the parent itself. -/
def tryRule (tm : Templates) (context : Ctx) (ds : DataSources)
    (fuel : Nat) (rule : Rule) : Except Unit (Option MatchResult) := do
  let ruleId := rule.id.getD "unknown"
  let matched ← evaluateBlock tm context ds fuel rule.conditions
  if matched then
    match (← firstSubMatch tm context ds fuel ruleId rule rule.sub_rules) with
    | some m => pure (some m)
    | none => pure (some (parentResult ruleId rule))
  else
    pure none

/-- One rule's contribution to the evaluate loop: a match result, or
none when the rule does not match or its evaluation raised (the except
branch logs and continues). -/
def ruleOutcome (tm : Templates) (context : Ctx) (ds : DataSources)
    (fuel : Nat) (rule : Rule) : Option MatchResult :=
  match tryRule tm context ds fuel rule with
  | .ok (some m) => some m
  | _ => none

/-- The loop of RuleEngine.evaluate over the priority-sorted active
rules: first match wins; a raising rule is skipped. -/
def evaluateRules (tm : Templates) (context : Ctx) (ds : DataSources)
    (fuel : Nat) : List Rule → Option MatchResult
  | [] => none
  | rule :: rest =>
    match tryRule tm context ds fuel rule with
    | .ok (some m) => some m
    | _ => evaluateRules tm context ds fuel rest

/-- Stable insertion of a rule into a priority-sorted list: the new rule
goes before the first rule of strictly greater priority and after rules
of equal priority already present. -/
def insertRule (r : Rule) : List Rule → List Rule
  | [] => [r]
  | s :: rest =>
    if rulePriority r ≤ rulePriority s then r :: s :: rest
    else s :: insertRule r rest

/-- Stable sort by rule priority.  Python's sorted is guaranteed stable;
stable sorts agree extensionally, so insertion sort is a faithful
model. -/
def sortRules : List Rule → List Rule
  | [] => []
  | r :: rest => insertRule r (sortRules rest)

/-- The rule list built by RuleEngine.__init__ and reload: active rules,
stably sorted ascending by priority. -/
def loadRules (ruleList : List Rule) : List Rule :=
  sortRules (ruleList.filter (fun r => isActive r))

/-- The parsed rule configuration file. -/
structure EngineConfig where
  rules : List Rule
  condition_templates : Templates

/-- The mutable fields of RuleEngine. -/
structure EngineState where
  config : EngineConfig
  rules : List Rule
  templates : Templates

/-- RuleEngine.__init__ after a successful load. -/
def initEngine (cfg : EngineConfig) : EngineState :=
  { config := cfg
    rules := loadRules cfg.rules
    templates := cfg.condition_templates }

/-- RuleEngine.reload.  The load result is passed in: _load_rules either
returns a parsed config or raises; when it raises, the exception
propagates before any field of the engine is assigned. -/
def reloadEngine (st : EngineState) (loaded : Except Unit EngineConfig) :
    EngineState :=
  match loaded with
  | .error _ => st
  | .ok cfg =>
    { config := cfg
      rules := loadRules cfg.rules
      templates := cfg.condition_templates }

/-- RuleEngine.evaluate on the loaded state. -/
def engineEvaluate (st : EngineState) (context : Ctx) (ds : DataSources)
    (fuel : Nat) : Option MatchResult :=
  evaluateRules st.templates context ds fuel st.rules

/-- Test for a leading run of three dashes, the separator used by
content.split("---"). -/
def isDashes3 : List Char → Bool
  | a :: b :: c :: _ => a == '-' && b == '-' && c == '-'
  | _ => false

/-- Python content.split("---"): split on every non-overlapping
occurrence of three dashes, scanning left to right. -/
def splitDashes : List Char → List (List Char)
  | [] => [[]]
  | c :: rest =>
    if isDashes3 (c :: rest) then [] :: splitDashes (rest.drop 2)
    else
      match splitDashes rest with
      | [] => [[c]]
      | p :: ps => (c :: p) :: ps
termination_by l => l.length
decreasing_by
  all_goals simp_wf
  all_goals omega

/-- Python "---".join(parts). -/
def joinDashes (parts : List (List Char)) : List Char :=
  match parts with
  | [] => []
  | p :: ps => p ++ (ps.map (fun q => ['-', '-', '-'] ++ q)).flatten

/-- Frontmatter stripping in MessageResolver._load_all: split the
content on the three-dash separator; when at least three parts result,
the stored body is the parts from index 2 rejoined and stripped,
otherwise the whole content stripped. -/
def stripFrontmatter (content : List Char) : List Char :=
  let parts := splitDashes content
  if 3 ≤ parts.length then trimChars (joinDashes (parts.drop 2))
  else trimChars content

/-- String-level wrapper of stripFrontmatter. -/
def stripFrontmatterS (content : String) : String :=
  ⟨stripFrontmatter content.data⟩

/-- The message cache: template name (file stem) to stored body. -/
structure ResolverState where
  cache : List (String × String)

/-- Outcome of scanning the messages directory in _load_all: the
directory may be missing (warn and return), or it yields the raw
contents of the .md files keyed by stem. -/
inductive LoadOutcome where
  | dirMissing : LoadOutcome
  | files : List (String × String) → LoadOutcome

/-- Python dict assignment self.cache[key] = body on the ordered
association list. -/
def dictSet (c : List (String × String)) (k v : String) :
    List (String × String) :=
  if c.any (fun kv => kv.1 == k) then
    c.map (fun kv => if kv.1 == k then (k, v) else kv)
  else c ++ [(k, v)]

/-- MessageResolver._load_all: on a missing directory, warn and return
without touching the cache; otherwise store each file's
frontmatter-stripped body under its stem. -/
def loadAll (st : ResolverState) (outcome : LoadOutcome) : ResolverState :=
  match outcome with
  | .dirMissing => st
  | .files fs =>
    { cache := fs.foldl (fun c kv => dictSet c kv.1 (stripFrontmatterS kv.2)) st.cache }

/-- MessageResolver.__init__: start from an empty cache and load. -/
def initResolver (outcome : LoadOutcome) : ResolverState :=
  loadAll { cache := [] } outcome

/-- MessageResolver.reload: clear the cache first, then load. -/
def reloadResolver (_st : ResolverState) (outcome : LoadOutcome) :
    ResolverState :=
  loadAll { cache := [] } outcome

/-- Python placeholder.split(".", 1): the text before the first dot and
everything after it, or none when the token has no dot. -/
def splitFirstDot : List Char → Option (List Char × List Char)
  | [] => none
  | c :: rest =>
    if c = '.' then some ([], rest)
    else (splitFirstDot rest).map (fun p => (c :: p.1, p.2))

/-- The replace_placeholder inner function of MessageResolver.resolve:
resolve one placeholder token (regex group 1, stripped).  A dotted token
first consults the named data source, then the full token as a flat
context key, then the text after the first dot as a context key; a plain
token is looked up directly; an unresolved token is returned in square
brackets. -/
def replacePlaceholder (context : Ctx) (ds : DataSources)
    (group1 : String) : String :=
  let placeholder := strTrim group1
  let direct : String :=
    match (alistGet context placeholder).getD .vnull with
    | .vnull => "[" ++ placeholder ++ "]"
    | v => pyStr v
  match splitFirstDot placeholder.data with
  | some (src, rest) =>
    let sourceName := String.mk src
    let restStr := String.mk rest
    let fromSource : Option String :=
      match alistGet ds sourceName with
      | some sourceMap =>
        let value := (alistGet sourceMap restStr).getD (.vstr "")
        if pyTruthy value then some (pyStr value) else none
      | none => none
    match fromSource with
    | some s => s
    | none =>
      match (alistGet context placeholder).getD .vnull with
      | .vnull =>
        match (alistGet context restStr).getD .vnull with
        | .vnull => direct
        | v => pyStr v
      | v => pyStr v
  | none => direct

/-- Scanner for the lazy regex body: having already consumed the two
opening braces, consume at least one non-newline character, stopping at
the earliest pair of closing braces (the reversed accumulator holds the
characters consumed so far). -/
def grabToken (acc : List Char) : List Char → Option (List Char × List Char)
  | [] => none
  | c :: rest =>
    if c = '}' ∧ rest.head? = some '}' then
      if acc.isEmpty then grabToken ['}'] rest
      else some (acc.reverse, rest.tail)
    else if c = '\n' then none
    else grabToken (c :: acc) rest

/-- A successful token grab consumes at least one character. -/
theorem grabToken_length : ∀ (l acc tok rest : List Char),
    grabToken acc l = some (tok, rest) → rest.length < l.length := by
  intro l
  induction l with
  | nil => intro acc tok rest h; simp [grabToken] at h
  | cons c cs ih =>
    intro acc tok rest h
    rw [grabToken] at h
    by_cases h1 : c = '}' ∧ cs.head? = some '}'
    · rw [if_pos h1] at h
      by_cases h2 : acc.isEmpty
      · rw [if_pos h2] at h
        have := ih _ _ _ h
        simp only [List.length_cons]
        omega
      · rw [if_neg h2] at h
        obtain ⟨h3, h4⟩ := Prod.mk.injEq .. ▸ Option.some.injEq .. ▸ h
        cases cs with
        | nil => simp at h1
        | cons d ds =>
          simp only [List.tail_cons] at h4
          subst h4
          simp only [List.length_cons]
          omega
    · rw [if_neg h1] at h
      by_cases h2 : c = '\n'
      · rw [if_pos h2] at h; exact absurd h (by simp)
      · rw [if_neg h2] at h
        have := ih _ _ _ h
        simp only [List.length_cons]
        omega

/-- The re.sub scan of MessageResolver.resolve: at each position try to
match two opening braces, a lazy non-newline body and two closing
braces; on a match substitute via repl and continue after it, otherwise
copy one character and move on. -/
def renderChars (repl : List Char → List Char) : List Char → List Char
  | [] => []
  | c :: rest =>
    if c = '{' ∧ rest.head? = some '{' then
      match hg : grabToken [] rest.tail with
      | some (tok, after) => repl tok ++ renderChars repl after
      | none => c :: renderChars repl rest
    else c :: renderChars repl rest
termination_by l => l.length
decreasing_by
  all_goals simp_wf
  all_goals try omega
  all_goals
    have h1 := grabToken_length _ _ _ _ hg
    have h2 : rest.tail.length ≤ rest.length := by
      cases rest <;> simp
    omega

/-- MessageResolver.resolve: a markdown body with every placeholder
substituted, or none when the message template is unknown.  The html
field of the Python result is the black-box markdown library applied to
the same substituted body, so it is not modelled separately. -/
def resolveMsg (st : ResolverState) (messageRef : String) (context : Ctx)
    (ds : DataSources) : Option String :=
  match alistGet st.cache messageRef with
  | none => none
  | some template =>
    some (String.mk (renderChars
      (fun tok => (replacePlaceholder context ds (String.mk tok)).data)
      template.data))

/-! Character and string lemmas used for the normalizer. -/

theorem lowerChar_idem (c : Char) : lowerChar (lowerChar c) = lowerChar c := by
  by_cases h : 65 ≤ c.toNat ∧ c.toNat ≤ 90
  · have h26 : ∀ n ∈ Finset.Icc 65 90,
        lowerChar (lowerChar (Char.ofNat n)) = lowerChar (Char.ofNat n) := by decide
    obtain ⟨n, h1, h2, rfl⟩ : ∃ n, 65 ≤ n ∧ n ≤ 90 ∧ c = Char.ofNat n :=
      ⟨c.toNat, h.1, h.2, (Char.ofNat_toNat c).symm⟩
    exact h26 n (Finset.mem_Icc.mpr ⟨h1, h2⟩)
  · have h0 : lowerChar c = c := by rw [lowerChar, if_neg h]
    rw [h0, h0]

theorem isWhitespace_lowerChar (c : Char) :
    (lowerChar c).isWhitespace = c.isWhitespace := by
  by_cases h : 65 ≤ c.toNat ∧ c.toNat ≤ 90
  · have h26 : ∀ n ∈ Finset.Icc 65 90,
        (lowerChar (Char.ofNat n)).isWhitespace = (Char.ofNat n).isWhitespace := by
      decide
    obtain ⟨n, h1, h2, rfl⟩ : ∃ n, 65 ≤ n ∧ n ≤ 90 ∧ c = Char.ofNat n :=
      ⟨c.toNat, h.1, h.2, (Char.ofNat_toNat c).symm⟩
    exact h26 n (Finset.mem_Icc.mpr ⟨h1, h2⟩)
  · have h0 : lowerChar c = c := by rw [lowerChar, if_neg h]
    rw [h0]

theorem map_lowerChar_idem (l : List Char) :
    (l.map lowerChar).map lowerChar = l.map lowerChar := by
  rw [List.map_map]
  congr 1
  funext c
  exact lowerChar_idem c

/-- A prefix of a list that drops nothing also drops nothing. -/
theorem dropWhile_eq_self_of_prefix {p : Char → Bool} {x y : List Char}
    (hpre : y <+: x) (hx : x.dropWhile p = x) : y.dropWhile p = y := by
  cases y with
  | nil => rfl
  | cons a ys =>
    rw [List.dropWhile_cons]
    have hx0 : 0 < x.length := by
      have := hpre.length_le
      simp at this ⊢
      omega
    have hhead : a = x.get ⟨0, hx0⟩ := by
      have h1 : (a :: ys)[0] = x[0] := hpre.getElem (by simp)
      simpa using h1
    have hnp := (List.dropWhile_eq_self_iff.mp hx) hx0
    rw [← hhead] at hnp
    simp [hnp]

theorem dropWhile_trimChars (p : Char → Bool) (l : List Char) :
    (((l.dropWhile p).rdropWhile p).dropWhile p) = (l.dropWhile p).rdropWhile p := by
  exact dropWhile_eq_self_of_prefix (List.rdropWhile_prefix p _)
    (List.dropWhile_idempotent p l)

theorem trimChars_idem (l : List Char) : trimChars (trimChars l) = trimChars l := by
  unfold trimChars
  rw [dropWhile_trimChars Char.isWhitespace l, List.rdropWhile_idempotent]

theorem rdropWhile_map_lowerChar (l : List Char) :
    (l.map lowerChar).rdropWhile Char.isWhitespace =
      (l.rdropWhile Char.isWhitespace).map lowerChar := by
  have hpf : (Char.isWhitespace ∘ lowerChar) = Char.isWhitespace := by
    funext c
    simp [Function.comp, isWhitespace_lowerChar]
  have hrev : (l.map lowerChar).reverse = l.reverse.map lowerChar := by simp
  rw [List.rdropWhile, List.rdropWhile, hrev, List.dropWhile_map, hpf]
  simp

theorem trimChars_map_lowerChar (l : List Char) :
    trimChars (l.map lowerChar) = (trimChars l).map lowerChar := by
  unfold trimChars
  rw [List.dropWhile_map]
  have hpf : (Char.isWhitespace ∘ lowerChar) = Char.isWhitespace := by
    funext c
    simp [Function.comp, isWhitespace_lowerChar]
  rw [hpf, rdropWhile_map_lowerChar]

/-- Lower-casing then stripping equals stripping then lower-casing. -/
theorem strTrim_strLower_comm (s : String) :
    strTrim (strLower s) = strLower (strTrim s) := by
  unfold strTrim strLower
  exact congrArg String.mk (trimChars_map_lowerChar s.data)

/-- The composite low-cased stripped form is a fixed point of itself. -/
theorem lowtrim_fixed (s : String) :
    strTrim (strLower (strTrim (strLower s))) = strTrim (strLower s) := by
  unfold strTrim strLower
  apply congrArg String.mk
  show trimChars ((trimChars (s.data.map lowerChar)).map lowerChar) = _
  rw [← trimChars_map_lowerChar, map_lowerChar_idem, trimChars_idem]

/-- Claim C4: _normalize maps None to None, passes booleans and
non-string scalars through unchanged, trims and lower-cases strings and
coerces the literal strings true and false (case-insensitively, after
trimming) to booleans, and is idempotent on every value. -/
theorem C4_normalize_cases_and_idempotent :
    (normalize .vnull = .vnull) ∧
    (∀ b, normalize (.vbool b) = .vbool b) ∧
    (∀ n : Int, normalize (.vint n) = .vint n) ∧
    (∀ l, normalize (.vlist l) = .vlist l) ∧
    (∀ d, normalize (.vdict d) = .vdict d) ∧
    (∀ s : String,
      normalize (.vstr s) =
        (if strLower (strTrim s) = "true" then .vbool true
         else if strLower (strTrim s) = "false" then .vbool false
         else .vstr (strLower (strTrim s)))) ∧
    (∀ v, normalize (normalize v) = normalize v) := by
  refine ⟨rfl, fun b => rfl, fun n => rfl, fun l => rfl, fun d => rfl,
    fun s => ?_, fun v => ?_⟩
  · show normalize (.vstr s) = _
    simp only [normalize, beq_iff_eq]
    rw [strTrim_strLower_comm]
  · cases v with
    | vnull => rfl
    | vbool b => rfl
    | vint n => rfl
    | vlist l => rfl
    | vdict d => rfl
    | vstr s =>
      by_cases h1 : strTrim (strLower s) = "true"
      · have hn : normalize (.vstr s) = .vbool true := by
          simp [normalize, h1]
        rw [hn]
        rfl
      · by_cases h2 : strTrim (strLower s) = "false"
        · have hn : normalize (.vstr s) = .vbool false := by
            simp [normalize, h1, h2]
          rw [hn]
          rfl
        · have hn : normalize (.vstr s) = .vstr (strTrim (strLower s)) := by
            simp [normalize, h1, h2]
          rw [hn]
          simp [normalize, lowtrim_fixed, h1, h2]

/-- Claim C5: on raw (non-normalized) values, is_empty holds exactly on
None, the empty string, the empty list, False and 0; is_not_empty is its
exact negation; exists_with_value holds exactly off None, the empty
string and the empty list; hence False and 0 are simultaneously
is_empty and exists_with_value. -/
theorem C5_raw_emptiness_operators :
    ∀ actual expected : Value,
      (compare actual expected "is_empty" = true ↔
        (actual = .vnull ∨ actual = .vstr "" ∨ actual = .vlist [] ∨
         actual = .vbool false ∨ actual = .vint 0)) ∧
      (compare actual expected "is_not_empty" =
        !compare actual expected "is_empty") ∧
      (compare actual expected "exists_with_value" = true ↔
        (actual ≠ .vnull ∧ actual ≠ .vstr "" ∧ actual ≠ .vlist [])) ∧
      (compare (.vbool false) expected "is_empty" = true ∧
       compare (.vbool false) expected "exists_with_value" = true ∧
       compare (.vint 0) expected "is_empty" = true ∧
       compare (.vint 0) expected "exists_with_value" = true) := by
  intro actual expected
  refine ⟨?_, rfl, ?_, rfl, rfl, rfl, rfl⟩
  · show (pyEq actual .vnull || pyEq actual (.vstr "") || pyEq actual (.vlist []) ||
      pyEq actual (.vbool false) || pyEq actual (.vint 0)) = true ↔ _
    cases actual with
    | vnull => simp [pyEq]
    | vbool b => cases b <;> simp [pyEq]
    | vint n => simp [pyEq]
    | vstr s => simp [pyEq]
    | vlist l => cases l <;> simp [pyEq, pyEqList]
    | vdict d => simp [pyEq]
  · show (!isNone actual && !pyEq actual (.vstr "") &&
      !pyEq actual (.vlist [])) = true ↔ _
    cases actual with
    | vnull => simp [pyEq, isNone]
    | vbool b => simp [pyEq, isNone]
    | vint n => simp [pyEq, isNone]
    | vstr s => simp [pyEq, isNone]
    | vlist l => cases l <;> simp [pyEq, pyEqList, isNone]
    | vdict d => simp [pyEq, isNone]

/-- Specification-side dotted-path descent (claim C3 tier 2): walk the
nested dicts segment by segment, failing as soon as a segment is missing
or a non-dict is reached. -/
def descendPath : Value → List (List Char) → Option Value
  | v, [] => some v
  | .vdict d, part :: rest =>
    match alistGet d (String.mk part) with
    | some v => descendPath v rest
    | none => none
  | _, _ :: _ => none

/-- Specification-side field resolver, written from the words of claim
C3: (1) the field verbatim as a flat key; (2) for dotted fields, the
nested descent; (3) the last dot-separated segment as a flat key, absent
(None) if that is also missing. -/
def specGetField (context : Ctx) (field : String) : Value :=
  match alistGet context field with
  | some v => v
  | none =>
    let parts := splitDot field.data
    let nested : Option Value :=
      if field.data.contains '.' then descendPath (.vdict context) parts
      else none
    match nested with
    | some v => v
    | none => (alistGet context (String.mk (parts.getLastD []))).getD .vnull

/-- The inner loop of _get_field computes the descent with last-segment
fallback. -/
theorem getFieldGo_descend (context : Ctx) (lastSeg : String) :
    ∀ (parts : List (List Char)) (current : Value),
      getFieldGo context lastSeg current parts =
        (match descendPath current parts with
         | some v => v
         | none => (alistGet context lastSeg).getD .vnull) := by
  intro parts
  induction parts with
  | nil => intro current; simp [getFieldGo, descendPath]
  | cons part rest ih =>
    intro current
    cases current with
    | vdict d =>
      rw [getFieldGo, descendPath]
      cases alistGet d (String.mk part) with
      | none => rfl
      | some v => exact ih v
    | vnull => rfl
    | vbool b => rfl
    | vint n => rfl
    | vstr s => rfl
    | vlist l => rfl

/-- A field with no dot splits into the single segment that is the whole
field. -/
theorem splitDot_no_dot : ∀ l : List Char, l.contains '.' = false →
    splitDot l = [l] := by
  intro l
  induction l with
  | nil => intro _; rfl
  | cons c rest ih =>
    intro h
    simp only [List.contains_cons, Bool.or_eq_false_iff] at h
    have hc : ¬c = '.' := by
      intro hc
      subst hc
      simp at h
    rw [splitDot, if_neg hc, ih h.2]

/-- Claim C3: _get_field implements exactly the three-tier lookup of the
specification (flat key, then dotted descent, then last-segment
fallback), and the two concrete examples from the spec resolve as
stated. -/
theorem C3_get_field_three_tiers :
    (∀ (context : Ctx) (field : String),
       getField context field = specGetField context field) ∧
    (getField [("Policy", .vdict [("PolicyState", .vstr "VA")])]
        "Policy.PolicyState" = .vstr "VA") ∧
    (getField [("PolicyState", .vstr "NV")] "Policy.PolicyState"
        = .vstr "NV") := by
  refine ⟨?_, rfl, rfl⟩
  intro context field
  rw [getField, specGetField]
  rcases h : alistGet context field with _ | v
  · simp only [getFieldGo_descend]
    by_cases hdot : field.data.contains '.' = true
    · rw [if_pos hdot]
    · rw [if_neg hdot, splitDot_no_dot field.data (by simpa using hdot)]
      have hmk : String.mk field.data = field := rfl
      have hdesc : descendPath (.vdict context) [field.data] = none := by
        rw [descendPath, hmk, h]
      rw [hdesc]
  · rfl

/-- An operator outside the defined list makes _compare return false. -/
theorem compare_unknown_op (a e : Value) (op : String)
    (h : op ∉ (["eq", "equals", "neq", "not_equals", "in", "not_in",
      "is_empty", "is_not_empty", "exists_with_value", "is_empty_or_false"] :
      List String)) :
    compare a e op = false := by
  simp only [List.mem_cons, List.not_mem_nil, or_false, not_or] at h
  obtain ⟨h1, h2, h3, h4, h5, h6, h7, h8, h9, h10⟩ := h
  simp [compare, beq_iff_eq, h1, h2, h3, h4, h5, h6, h7, h8, h9, h10]

/-- Counterexample to claim C6 as stated: a leaf with the undefined
operator bogus does not evaluate to false on every input — on a
source-only leaf the unknown-operator fallthrough returns the
truthiness of the source mapping, here true. -/
theorem C6_counterexample_unknown_op_source_only :
    evaluateBlock [] [] [("s", [("x", .vstr "1")])] 1
      (.leaf (some "bogus") (some "s") none none) = .ok true ∧
    Except.ok true ≠ (Except.ok false : Except Unit Bool) := by
  exact ⟨rfl, by simp⟩

/-- Claim C6 as amended: an undefined operator evaluates to false on any
field-resolving leaf; on a source-only leaf any operator other than
is_empty and is_not_empty evaluates to the non-emptiness of the source
mapping (so an undefined operator there is not necessarily false); a
TemplateRef naming a missing template evaluates to false; and a rule
whose evaluation raises is treated as not matching, evaluation
continuing with the next rule in priority order. -/
theorem C6_defects_degrade_gracefully :
    (∀ (tm : Templates) (context : Ctx) (ds : DataSources) (fuel : Nat)
       (op f : String) (v : Option Value),
       op ∉ (["eq", "equals", "neq", "not_equals", "in", "not_in",
         "is_empty", "is_not_empty", "exists_with_value", "is_empty_or_false"] :
         List String) →
       evaluateBlock tm context ds (fuel + 1) (.leaf (some op) none (some f) v)
          = .ok false ∧
       (∀ src, evaluateBlock tm context ds (fuel + 1)
          (.leaf (some op) (some src) (some f) v) = .ok false) ∧
       (∀ src, evaluateBlock tm context ds (fuel + 1)
          (.leaf (some op) (some src) none v)
          = .ok (!((alistGet ds src).getD []).isEmpty))) ∧
    (∀ (tm : Templates) (context : Ctx) (ds : DataSources) (fuel : Nat)
       (name : String), alistGet tm name = none →
       evaluateBlock tm context ds (fuel + 1) (.useTemplate name) = .ok false) ∧
    (∀ (tm : Templates) (context : Ctx) (ds : DataSources) (fuel : Nat)
       (rule : Rule) (rest : List Rule),
       tryRule tm context ds fuel rule = .error () →
       evaluateRules tm context ds fuel (rule :: rest) =
         evaluateRules tm context ds fuel rest) := by
  refine ⟨?_, ?_, ?_⟩
  · intro tm context ds fuel op f v h
    simp only [List.mem_cons, List.not_mem_nil, or_false, not_or] at h
    obtain ⟨h1, h2, h3, h4, h5, h6, h7, h8, h9, h10⟩ := h
    refine ⟨?_, fun src => ?_, fun src => ?_⟩
    · show Except.ok (evaluateCondition context ds (some op) none (some f) v) = _
      have hc : evaluateCondition context ds (some op) none (some f) v = false := by
        simp only [evaluateCondition]
        exact compare_unknown_op _ _ _
          (by simp [h1, h2, h3, h4, h5, h6, h7, h8, h9, h10])
      rw [hc]
    · show Except.ok (evaluateCondition context ds (some op) (some src) (some f) v) = _
      have hc : evaluateCondition context ds (some op) (some src) (some f) v = false := by
        simp only [evaluateCondition]
        exact compare_unknown_op _ _ _
          (by simp [h1, h2, h3, h4, h5, h6, h7, h8, h9, h10])
      rw [hc]
    · show Except.ok (evaluateCondition context ds (some op) (some src) none v) = _
      have hc : evaluateCondition context ds (some op) (some src) none v
          = !((alistGet ds src).getD []).isEmpty := by
        simp only [evaluateCondition]
        simp [beq_iff_eq, h7, h8]
      rw [hc]
  · intro tm context ds fuel name h
    simp [evaluateBlock, h]
  · intro tm context ds fuel rule rest h
    simp [evaluateRules, h]

/-- A rule whose conditions reference a cyclic condition template (so
its evaluation raises). -/
def ruleCycle : Rule :=
  { id := some "CYC", name := none, priority := some 1, active := none
    conditions := .useTemplate "LOOP", message_ref := none
    placeholders := none, tags := none, sub_rules := [] }

/-- A rule whose conditions always hold (empty conjunction). -/
def ruleAlways : Rule :=
  { id := some "B", name := none, priority := some 2, active := none
    conditions := .allB [], message_ref := some "MB"
    placeholders := none, tags := none, sub_rules := [] }

/-- Witness for the amended claim C6 at concrete inputs: an undefined
operator on a field leaf is false, a missing template is false, and a
rule raising on a template cycle is skipped in favour of the rest of the
rule list. -/
theorem C6_defects_degrade_gracefully_witness :
    (evaluateBlock [] [] [] 1 (.leaf (some "bogus") none (some "X") none)
      = .ok false) ∧
    (evaluateBlock [] [] [] 1 (.useTemplate "missing") = .ok false) ∧
    (evaluateRules [("LOOP", .useTemplate "LOOP")] [] [] 5
      [ruleCycle, ruleAlways] =
     evaluateRules [("LOOP", .useTemplate "LOOP")] [] [] 5 [ruleAlways]) := by
  refine ⟨(C6_defects_degrade_gracefully.1 [] [] [] 0 "bogus" "X" none
      (by decide)).1,
    C6_defects_degrade_gracefully.2.1 [] [] [] 0 "missing" rfl,
    C6_defects_degrade_gracefully.2.2 [("LOOP", .useTemplate "LOOP")] [] [] 5
      ruleCycle [ruleAlways] rfl⟩

/-- Sub-rules whose conditions evaluate to false are passed over by the
sub-rule loop. -/
theorem firstSubMatch_skip_false (tm : Templates) (context : Ctx)
    (ds : DataSources) (fuel : Nat) (ruleId : String) (rule : Rule) :
    ∀ s1 : List SubRule,
      (∀ y ∈ s1, evaluateBlock tm context ds fuel y.conditions = .ok false) →
      ∀ s2, firstSubMatch tm context ds fuel ruleId rule (s1 ++ s2) =
        firstSubMatch tm context ds fuel ruleId rule s2 := by
  intro s1
  induction s1 with
  | nil => intro _ s2; rfl
  | cons y ys ih =>
    intro h s2
    have hy := h y (List.mem_cons_self ..)
    rw [List.cons_append, firstSubMatch, hy]
    simpa using ih (fun z hz => h z (List.mem_cons_of_mem _ hz)) s2

/-- Claim C2: for a rule whose top-level conditions hold — empty
sub_rules return the parent match immediately; otherwise the first
sub-rule in declaration order whose conditions hold is returned, its
rule_id being the sub-rule's id, parent_rule_id the parent's id, and
message_ref and placeholders taken from the sub-rule when present and
inherited from the parent otherwise; when no sub-rule matches, the
parent itself is returned without parent_rule_id. -/
theorem C2_sub_rule_selection :
    ∀ (tm : Templates) (context : Ctx) (ds : DataSources) (fuel : Nat)
      (rule : Rule) (rest : List Rule),
      evaluateBlock tm context ds fuel rule.conditions = .ok true →
      (rule.sub_rules = [] →
        evaluateRules tm context ds fuel (rule :: rest) =
          some { rule_id := rule.id.getD "unknown"
                 parent_rule_id := none
                 name := rule.name.getD ""
                 message_ref := some (rule.message_ref.getD "")
                 placeholders := rule.placeholders.getD []
                 priority := rule.priority
                 tags := rule.tags.getD [] }) ∧
      (∀ s1 sub s2, rule.sub_rules = s1 ++ sub :: s2 →
        (∀ y ∈ s1, evaluateBlock tm context ds fuel y.conditions = .ok false) →
        evaluateBlock tm context ds fuel sub.conditions = .ok true →
        evaluateRules tm context ds fuel (rule :: rest) =
          some { rule_id := sub.id.getD (rule.id.getD "unknown")
                 parent_rule_id := some (rule.id.getD "unknown")
                 name := rule.name.getD ""
                 message_ref := match sub.message_ref with
                   | some v => some v
                   | none => rule.message_ref
                 placeholders := sub.placeholders.getD (rule.placeholders.getD [])
                 priority := rule.priority
                 tags := rule.tags.getD [] }) ∧
      ((∀ y ∈ rule.sub_rules,
          evaluateBlock tm context ds fuel y.conditions = .ok false) →
        evaluateRules tm context ds fuel (rule :: rest) =
          some { rule_id := rule.id.getD "unknown"
                 parent_rule_id := none
                 name := rule.name.getD ""
                 message_ref := some (rule.message_ref.getD "")
                 placeholders := rule.placeholders.getD []
                 priority := rule.priority
                 tags := rule.tags.getD [] }) := by
  intro tm context ds fuel rule rest h
  refine ⟨?_, ?_, ?_⟩
  · intro hsub
    simp [evaluateRules, tryRule, h, hsub, firstSubMatch, parentResult, Bind.bind, Except.bind, Pure.pure, Except.pure]
  · intro s1 sub s2 hs hfalse htrue
    have hfirst : firstSubMatch tm context ds fuel (rule.id.getD "unknown") rule
        rule.sub_rules = .ok (some (subResult (rule.id.getD "unknown") rule sub)) := by
      rw [hs, firstSubMatch_skip_false tm context ds fuel _ rule s1 hfalse,
        firstSubMatch, htrue]
      rfl
    simp [evaluateRules, tryRule, h, hfirst, subResult, Bind.bind, Except.bind, Pure.pure, Except.pure]
  · intro hfalse
    have hfirst : firstSubMatch tm context ds fuel (rule.id.getD "unknown") rule
        rule.sub_rules = .ok none := by
      have := firstSubMatch_skip_false tm context ds fuel (rule.id.getD "unknown")
        rule rule.sub_rules hfalse []
      simpa using this
    simp [evaluateRules, tryRule, h, hfirst, parentResult, Bind.bind, Except.bind, Pure.pure, Except.pure]

/-- A rule with two sub-rules where only the second's conditions hold
(the spec's sub-rule precedence example). -/
def ruleTwoSubs : Rule :=
  { id := some "R", name := some "N", priority := some 5, active := none
    conditions := .allB []
    message_ref := some "PARENT_MSG", placeholders := some ["p"]
    tags := some ["t"]
    sub_rules :=
      [{ id := some "S1", conditions := .notB (.allB [])
         message_ref := none, placeholders := none },
       { id := some "S2", conditions := .allB []
         message_ref := some "SUB_MSG", placeholders := none }] }

/-- Witness for claim C2 at the spec's concrete example: the second
sub-rule is returned with its own id and message_ref, the parent's id in
parent_rule_id, and the parent's placeholders inherited. -/
theorem C2_sub_rule_selection_witness :
    evaluateRules [] [] [] 3 [ruleTwoSubs] =
      some { rule_id := "S2", parent_rule_id := some "R", name := "N"
             message_ref := some "SUB_MSG", placeholders := ["p"]
             priority := some 5, tags := ["t"] } := by
  exact (C2_sub_rule_selection [] [] [] 3 ruleTwoSubs [] rfl).2.1
    [{ id := some "S1", conditions := .notB (.allB [])
       message_ref := none, placeholders := none }]
    { id := some "S2", conditions := .allB []
      message_ref := some "SUB_MSG", placeholders := none }
    [] rfl (by intro y hy; rw [List.mem_singleton] at hy; subst hy; rfl) rfl

/-! Lemmas about the stable priority sort and the first-match scan. -/

theorem insertRule_perm (r : Rule) (l : List Rule) :
    List.Perm (insertRule r l) (r :: l) := by
  induction l with
  | nil => rfl
  | cons s rest ih =>
    rw [insertRule]
    by_cases h : rulePriority r ≤ rulePriority s
    · rw [if_pos h]
    · rw [if_neg h]
      exact (ih.cons s).trans (List.Perm.swap r s rest)

theorem sortRules_perm (l : List Rule) : List.Perm (sortRules l) l := by
  induction l with
  | nil => rfl
  | cons r rest ih =>
    exact (insertRule_perm r (sortRules rest)).trans (ih.cons r)

theorem insertRule_pairwise (r : Rule) (l : List Rule)
    (h : l.Pairwise (fun a b => rulePriority a ≤ rulePriority b)) :
    (insertRule r l).Pairwise (fun a b => rulePriority a ≤ rulePriority b) := by
  induction l with
  | nil => simp [insertRule]
  | cons s rest ih =>
    rw [insertRule]
    rcases List.pairwise_cons.mp h with ⟨hs, hrest⟩
    by_cases hle : rulePriority r ≤ rulePriority s
    · rw [if_pos hle]
      refine List.pairwise_cons.mpr ⟨?_, h⟩
      intro y hy
      rcases List.mem_cons.mp hy with rfl | hy2
      · exact hle
      · exact le_trans hle (hs y hy2)
    · rw [if_neg hle]
      refine List.pairwise_cons.mpr ⟨?_, ih hrest⟩
      intro y hy
      rcases List.mem_cons.mp ((insertRule_perm r rest).mem_iff.mp hy) with rfl | h2
      · exact le_of_not_le hle
      · exact hs y h2

theorem sortRules_pairwise (l : List Rule) :
    (sortRules l).Pairwise (fun a b => rulePriority a ≤ rulePriority b) := by
  induction l with
  | nil => simp [sortRules]
  | cons r rest ih => exact insertRule_pairwise r (sortRules rest) ih

/-- Stability of the insertion step: restricted to any one priority, the
inserted list reads the same as consing the new rule in front. -/
theorem insertRule_filter_key (p : Int) (r : Rule) (l : List Rule) :
    (insertRule r l).filter (fun x => rulePriority x == p) =
      (r :: l).filter (fun x => rulePriority x == p) := by
  induction l with
  | nil => rfl
  | cons s rest ih =>
    rw [insertRule]
    by_cases hle : rulePriority r ≤ rulePriority s
    · rw [if_pos hle]
    · rw [if_neg hle]
      by_cases hr : rulePriority r == p
      · have hs : (rulePriority s == p) = false := by
          have h1 : rulePriority s < rulePriority r := lt_of_not_le hle
          have h2 : rulePriority r = p := by simpa using hr
          simp only [beq_eq_false_iff_ne, ne_eq]
          omega
        simp only [List.filter_cons, hs, hr, ih, cond_false, cond_true]
        simp [List.filter_cons, hs]
      · have hr0 : (rulePriority r == p) = false := by simpa using hr
        simp only [List.filter_cons, hr0, ih, cond_false]
        simp [List.filter_cons, hr0]

/-- Stability of the sort: restricted to any one priority, the sorted
list preserves declaration order. -/
theorem sortRules_filter_key (p : Int) (l : List Rule) :
    (sortRules l).filter (fun x => rulePriority x == p) =
      l.filter (fun x => rulePriority x == p) := by
  induction l with
  | nil => rfl
  | cons r rest ih =>
    rw [sortRules, insertRule_filter_key]
    simp only [List.filter_cons, ih]

/-- The first-match scan: a successful evaluation decomposes the rule
list into skipped rules (no outcome), the matching rule, and the
rest. -/
theorem evaluateRules_first (tm : Templates) (context : Ctx)
    (ds : DataSources) (fuel : Nat) :
    ∀ (l : List Rule) (m : MatchResult),
      evaluateRules tm context ds fuel l = some m →
      ∃ l1 r l2, l = l1 ++ r :: l2 ∧
        ruleOutcome tm context ds fuel r = some m ∧
        ∀ y ∈ l1, ruleOutcome tm context ds fuel y = none := by
  intro l
  induction l with
  | nil => intro m h; simp [evaluateRules] at h
  | cons r rest ih =>
    intro m h
    rw [evaluateRules] at h
    cases ht : tryRule tm context ds fuel r with
    | error e =>
      rw [ht] at h
      obtain ⟨l1, x, l2, hl, hx, hnone⟩ := ih m h
      refine ⟨r :: l1, x, l2, by rw [hl, List.cons_append], hx, ?_⟩
      intro y hy
      rcases List.mem_cons.mp hy with rfl | hy2
      · simp [ruleOutcome, ht]
      · exact hnone y hy2
    | ok o =>
      cases o with
      | none =>
        rw [ht] at h
        obtain ⟨l1, x, l2, hl, hx, hnone⟩ := ih m h
        refine ⟨r :: l1, x, l2, by rw [hl, List.cons_append], hx, ?_⟩
        intro y hy
        rcases List.mem_cons.mp hy with rfl | hy2
        · simp [ruleOutcome, ht]
        · exact hnone y hy2
      | some m0 =>
        rw [ht] at h
        have hm : m0 = m := by simpa using h
        subst hm
        exact ⟨[], r, rest, rfl, by simp [ruleOutcome, ht], by simp⟩

/-- Every sub-rule match result carries the parent rule's priority. -/
theorem firstSubMatch_priority (tm : Templates) (context : Ctx)
    (ds : DataSources) (fuel : Nat) (ruleId : String) (rule : Rule) :
    ∀ (subs : List SubRule) (m : MatchResult),
      firstSubMatch tm context ds fuel ruleId rule subs = .ok (some m) →
      m.priority = rule.priority := by
  intro subs
  induction subs with
  | nil => intro m h; simp [firstSubMatch] at h
  | cons sub rest ih =>
    intro m h
    rw [firstSubMatch] at h
    cases hb : evaluateBlock tm context ds fuel sub.conditions with
    | error e => rw [hb] at h; exact absurd h (by simp [Bind.bind, Except.bind])
    | ok v =>
      rw [hb] at h
      cases v with
      | true =>
        have : subResult ruleId rule sub = m := by
          simpa [Bind.bind, Except.bind, Pure.pure, Except.pure] using h
        rw [← this]
        rfl
      | false =>
        refine ih m ?_
        simpa [Bind.bind, Except.bind] using h

/-- Every match result carries the priority of the rule that produced
it. -/
theorem ruleOutcome_priority (tm : Templates) (context : Ctx)
    (ds : DataSources) (fuel : Nat) (r : Rule) (m : MatchResult)
    (h : ruleOutcome tm context ds fuel r = some m) :
    m.priority = r.priority := by
  rw [ruleOutcome] at h
  cases ht : tryRule tm context ds fuel r with
  | error e => rw [ht] at h; exact absurd h (by simp)
  | ok o =>
    rw [ht] at h
    cases o with
    | none => exact absurd h (by simp)
    | some m0 =>
      have hm : m0 = m := by simpa using h
      rw [tryRule] at ht
      cases hb : evaluateBlock tm context ds fuel r.conditions with
      | error e => rw [hb] at ht; exact absurd ht (by simp [Bind.bind, Except.bind])
      | ok v =>
        rw [hb] at ht
        cases v with
        | false => exact absurd ht (by simp [Bind.bind, Except.bind, Pure.pure, Except.pure])
        | true =>
          cases hf : firstSubMatch tm context ds fuel (r.id.getD "unknown") r
              r.sub_rules with
          | error e => rw [hf] at ht; exact absurd ht (by simp [Bind.bind, Except.bind])
          | ok o2 =>
            rw [hf] at ht
            cases o2 with
            | some msub =>
              have hsub : msub = m0 := by
                simpa [Bind.bind, Except.bind, Pure.pure, Except.pure] using ht
              rw [← hsub] at hm
              rw [← hm]
              exact firstSubMatch_priority tm context ds fuel _ r r.sub_rules msub hf
            | none =>
              have hpar : parentResult (r.id.getD "unknown") r = m0 := by
                simpa [Bind.bind, Except.bind, Pure.pure, Except.pure] using ht
              rw [← hm, ← hpar]
              rfl

/-- Claim C1: when evaluate returns a match, the match's priority is a
lower bound on the priority of every active rule that matches on the
same input, and among active rules of the match's priority the returned
rule is the first in declaration order that matches (every earlier
equal-priority active rule fails): the active-rule list is sorted
ascending by priority with a stable sort preserving declaration order
for ties. -/
theorem C1_first_match_minimal_priority_stable :
    ∀ (tm : Templates) (context : Ctx) (ds : DataSources) (fuel : Nat)
      (ruleList : List Rule) (m : MatchResult),
      evaluateRules tm context ds fuel (loadRules ruleList) = some m →
      (∀ r', r' ∈ ruleList → isActive r' = true →
        ∀ m', ruleOutcome tm context ds fuel r' = some m' →
          m.priority.getD 999 ≤ rulePriority r') ∧
      (∃ d1 r d2,
        ruleList.filter
            (fun x => isActive x && (rulePriority x == m.priority.getD 999)) =
          d1 ++ r :: d2 ∧
        ruleOutcome tm context ds fuel r = some m ∧
        ∀ y ∈ d1, ruleOutcome tm context ds fuel y = none) := by
  intro tm context ds fuel ruleList m hev
  obtain ⟨l1, x, l2, hS, hx, hnone⟩ :=
    evaluateRules_first tm context ds fuel _ m hev
  have hxp : m.priority = x.priority :=
    ruleOutcome_priority tm context ds fuel x m hx
  have hkey : m.priority.getD 999 = rulePriority x := by rw [hxp]; rfl
  have hpair : (loadRules ruleList).Pairwise
      (fun a b => rulePriority a ≤ rulePriority b) := sortRules_pairwise _
  constructor
  · intro r' hmem hact m' hout
    have hrf : r' ∈ ruleList.filter (fun r => isActive r) :=
      List.mem_filter.mpr ⟨hmem, hact⟩
    have hrS : r' ∈ loadRules ruleList := (sortRules_perm _).mem_iff.mpr hrf
    rw [hS] at hrS
    rcases List.mem_append.mp hrS with h1 | h2
    · rw [hnone r' h1] at hout
      exact absurd hout (by simp)
    · rcases List.mem_cons.mp h2 with rfl | h3
      · rw [hkey]
      · rw [hkey]
        rw [hS] at hpair
        exact List.rel_of_pairwise_cons (List.pairwise_append.mp hpair).2.1 h3
  · have hfilter : (loadRules ruleList).filter
        (fun y => rulePriority y == m.priority.getD 999) =
          ruleList.filter
            (fun y => isActive y && (rulePriority y == m.priority.getD 999)) := by
      rw [loadRules, sortRules_filter_key, List.filter_filter]
      exact List.filter_congr (fun a _ => by rw [Bool.and_comm])
    refine ⟨l1.filter (fun y => rulePriority y == m.priority.getD 999), x,
      l2.filter (fun y => rulePriority y == m.priority.getD 999), ?_, hx, ?_⟩
    · rw [← hfilter, hS, List.filter_append, List.filter_cons]
      have hxk : (rulePriority x == m.priority.getD 999) = true := by
        rw [hkey]
        exact beq_self_eq_true _
      simp [hxk]
    · intro y hy
      exact hnone y (List.mem_of_mem_filter hy)

/-- A lower-priority always-matching rule declared before ruleAlways. -/
def ruleThird : Rule :=
  { id := some "A3", name := none, priority := some 3, active := none
    conditions := .allB [], message_ref := some "M3"
    placeholders := none, tags := none, sub_rules := [] }

/-- Witness for claim C1 at a concrete rule set: with rules of priority
3 and 2 both matching, the returned match (priority 2) bounds the other
matching rule's priority from below. -/
theorem C1_first_match_minimal_priority_stable_witness :
    ({ rule_id := "B", parent_rule_id := none, name := ""
       message_ref := some "MB", placeholders := [], priority := some 2
       tags := [] } : MatchResult).priority.getD 999 ≤ rulePriority ruleThird := by
  exact (C1_first_match_minimal_priority_stable [] [] [] 1
      [ruleThird, ruleAlways] _ rfl).1 ruleThird (by simp) rfl
    { rule_id := "A3", parent_rule_id := none, name := ""
      message_ref := some "M3", placeholders := [], priority := some 3
      tags := [] } rfl

/-- Specification-side per-token resolution written as an ordered chain
of alternatives, from the words of the amended claim C7: a dotted token
first consults the data source named by its first segment (the rest of
the token as the field, accepted when truthy); then the full token as a
flat context key; then the text after the first dot as a context key; a
plain token is looked up directly (the same flat lookup); when nothing
resolves, the token is returned in square brackets. -/
def specResolveToken (context : Ctx) (ds : DataSources)
    (group1 : String) : String :=
  let token := strTrim group1
  let viaSource : Option String :=
    match splitFirstDot token.data with
    | none => none
    | some (src, rest) =>
      match alistGet ds (String.mk src) with
      | none => none
      | some sourceMap =>
        let v := (alistGet sourceMap (String.mk rest)).getD (.vstr "")
        if pyTruthy v then some (pyStr v) else none
  let viaFlat : Option String :=
    match alistGet context token with
    | none => none
    | some v => if isNone v then none else some (pyStr v)
  let viaRest : Option String :=
    match splitFirstDot token.data with
    | none => none
    | some (_, rest) =>
      match alistGet context (String.mk rest) with
      | none => none
      | some v => if isNone v then none else some (pyStr v)
  (((viaSource.orElse fun _ => viaFlat).orElse fun _ => viaRest)).getD
    ("[" ++ token ++ "]")

/-- Counterexample to claim C7 as stated: for the two-dot token a.b.c
the code's fallback looks up the text after the first dot (b.c), not the
last segment (c); with only the last segment bound in the context the
placeholder stays unresolved and is bracketed instead of yielding X. -/
theorem C7_counterexample_last_segment :
    replacePlaceholder [("c", .vstr "X")] [] "a.b.c" = "[a.b.c]" ∧
    "[a.b.c]" ≠ "X" := by
  exact ⟨rfl, by decide⟩

/-- Claim C7 as amended: each placeholder token is resolved by the
ordered chain (data source via first segment when truthy, full token as
flat context key, text after the first dot as context key, square
brackets when unresolved); resolve returns a rendering exactly for known
message refs; and an unknown token renders bracketed. -/
theorem C7_placeholder_resolution :
    (∀ (context : Ctx) (ds : DataSources) (group1 : String),
      replacePlaceholder context ds group1 =
        specResolveToken context ds group1) ∧
    (∀ (st : ResolverState) (ref : String) (context : Ctx) (ds : DataSources),
      (resolveMsg st ref context ds).isSome = (alistGet st.cache ref).isSome) ∧
    (resolveMsg { cache := [("T", "xx\x7b\x7bunknown_token\x7d\x7dyy")] }
        "T" [] [] = some "xx[unknown_token]yy") := by
  refine ⟨?_, ?_, ?_⟩
  · intro context ds group1
    rw [replacePlaceholder, specResolveToken]
    cases hsplit : splitFirstDot (strTrim group1).data with
    | none =>
      cases hctx : alistGet context (strTrim group1) with
      | none => simp [hsplit, hctx, Option.orElse]
      | some v =>
        cases v <;> simp [hsplit, hctx, Option.orElse, isNone]
    | some pr =>
      obtain ⟨src, rest⟩ := pr
      cases hds : alistGet ds (String.mk src) with
      | none =>
        cases hctx : alistGet context (strTrim group1) with
        | none =>
          cases hrest : alistGet context (String.mk rest) with
          | none => simp [hsplit, hds, hctx, hrest, Option.orElse]
          | some w =>
            cases w <;> simp [hsplit, hds, hctx, hrest, Option.orElse, isNone]
        | some v =>
          cases v <;> first
            | (cases hrest : alistGet context (String.mk rest) with
                | none => simp [hsplit, hds, hctx, hrest, Option.orElse, isNone]
                | some w =>
                  cases w <;>
                    simp [hsplit, hds, hctx, hrest, Option.orElse, isNone])
            | simp [hsplit, hds, hctx, Option.orElse, isNone]
      | some sourceMap =>
        by_cases hv : pyTruthy ((alistGet sourceMap (String.mk rest)).getD (.vstr ""))
        · simp [hsplit, hds, hv, Option.orElse]
        · cases hctx : alistGet context (strTrim group1) with
          | none =>
            cases hrest : alistGet context (String.mk rest) with
            | none => simp [hsplit, hds, hv, hctx, hrest, Option.orElse]
            | some w =>
              cases w <;> simp [hsplit, hds, hv, hctx, hrest, Option.orElse, isNone]
          | some v =>
            cases v <;> first
              | (cases hrest : alistGet context (String.mk rest) with
                  | none => simp [hsplit, hds, hv, hctx, hrest, Option.orElse, isNone]
                  | some w =>
                    cases w <;>
                      simp [hsplit, hds, hv, hctx, hrest, Option.orElse, isNone])
              | simp [hsplit, hds, hv, hctx, Option.orElse, isNone]
  · intro st ref context ds
    rw [resolveMsg]
    cases h : alistGet st.cache ref with
    | none => simp
    | some t => simp
  · simp [resolveMsg, alistGet, renderChars, grabToken, replacePlaceholder,
      strTrim, trimChars, splitFirstDot, pyStr, List.rdropWhile]

/-- Counterexample to claim C8 as stated: MessageResolver.reload clears
the cache before loading, so a failed load (missing messages directory)
leaves the resolver serving zero templates — a resolve call that
succeeded before the failed reload returns not-found after it. -/
theorem C8_counterexample_resolver_cleared :
    resolveMsg { cache := [("M", "Hello")] } "M" [] [] = some "Hello" ∧
    resolveMsg (reloadResolver { cache := [("M", "Hello")] } .dirMissing)
      "M" [] [] = none ∧
    (reloadResolver { cache := [("M", "Hello")] } .dirMissing).cache = [] := by
  refine ⟨?_, rfl, rfl⟩
  simp [resolveMsg, alistGet, renderChars, grabToken]

/-- Claim C8 as amended: a failed rule load during RuleEngine.reload
preserves the engine snapshot unchanged (config, rules, condition
templates), so every subsequent evaluate behaves exactly as before the
reload was attempted; the MessageResolver however clears its cache
before reloading, so after a failed message load it serves an empty
cache and every resolve returns not-found. -/
theorem C8_reload_failure_snapshot :
    (∀ st : EngineState, reloadEngine st (.error ()) = st) ∧
    (∀ (st : EngineState) (context : Ctx) (ds : DataSources) (fuel : Nat),
      engineEvaluate (reloadEngine st (.error ())) context ds fuel =
        engineEvaluate st context ds fuel) ∧
    (∀ st : ResolverState, (reloadResolver st .dirMissing).cache = []) ∧
    (∀ (st : ResolverState) (ref : String) (context : Ctx) (ds : DataSources),
      resolveMsg (reloadResolver st .dirMissing) ref context ds = none) := by
  exact ⟨fun st => rfl, fun st context ds fuel => rfl, fun st => rfl,
    fun st ref context ds => rfl⟩

/-! Scanner-level description of the frontmatter stripping. -/

/-- Specification-side scanner: the text after the first non-overlapping
occurrence of the three-dash marker, none when there is no
occurrence. -/
def dropMarker : List Char → Option (List Char)
  | [] => none
  | c :: rest =>
    if isDashes3 (c :: rest) then some (rest.drop 2)
    else dropMarker rest

/-- Specification-side scanner: the text before the first occurrence of
the three-dash marker (the whole text when there is none). -/
def takeMarker : List Char → List Char
  | [] => []
  | c :: rest =>
    if isDashes3 (c :: rest) then []
    else c :: takeMarker rest

/-- A true three-dash test exposes the three dashes. -/
theorem isDashes3_shape (l : List Char) (h : isDashes3 l = true) :
    ∃ t, l = '-' :: '-' :: '-' :: t := by
  cases l with
  | nil => simp [isDashes3] at h
  | cons a l1 =>
    cases l1 with
    | nil => simp [isDashes3] at h
    | cons b l2 =>
      cases l2 with
      | nil => simp [isDashes3] at h
      | cons c t =>
        simp only [isDashes3, Bool.and_eq_true, beq_iff_eq] at h
        obtain ⟨⟨rfl, rfl⟩, rfl⟩ := h
        exact ⟨t, rfl⟩

/-- The split decomposes as the text before the first marker followed by
the split of the text after it. -/
theorem splitDashes_structure : ∀ l : List Char,
    splitDashes l = takeMarker l ::
      (match dropMarker l with
       | none => []
       | some r => splitDashes r) := by
  intro l
  induction l with
  | nil => simp [splitDashes, takeMarker, dropMarker]
  | cons c rest ih =>
    by_cases h : isDashes3 (c :: rest) = true
    · rw [splitDashes, if_pos h, takeMarker, if_pos h, dropMarker, if_pos h]
    · rw [splitDashes, if_neg h, takeMarker, if_neg h, dropMarker, if_neg h, ih]

/-- The split is never empty. -/
theorem splitDashes_ne_nil (l : List Char) : splitDashes l ≠ [] := by
  rw [splitDashes_structure]
  simp

/-- Joining undoes splitting. -/
theorem joinDashes_splitDashes (l : List Char) :
    joinDashes (splitDashes l) = l := by
  cases l with
  | nil => simp [splitDashes, joinDashes]
  | cons c rest =>
    by_cases h : isDashes3 (c :: rest) = true
    · obtain ⟨t, ht⟩ := isDashes3_shape _ h
      injection ht with h1 h2
      subst h1
      subst h2
      rw [splitDashes, if_pos h]
      have hd : ('-' :: '-' :: t).drop 2 = t := rfl
      rw [hd]
      have hrec := joinDashes_splitDashes t
      rcases hsp : splitDashes t with _ | ⟨p, ps⟩
      · exact absurd hsp (splitDashes_ne_nil _)
      · rw [hsp] at hrec
        rw [joinDashes] at hrec ⊢
        simp only [List.map_cons, List.flatten_cons, List.nil_append,
          List.cons_append, List.append_assoc] at hrec ⊢
        simp [hrec]
    · rw [splitDashes, if_neg h]
      have hrec := joinDashes_splitDashes rest
      rcases hsp : splitDashes rest with _ | ⟨p, ps⟩
      · exact absurd hsp (splitDashes_ne_nil _)
      · rw [hsp] at hrec
        cases ps with
        | nil =>
          rw [joinDashes] at hrec ⊢
          simp only [List.map_nil, List.flatten_nil, List.append_nil] at hrec ⊢
          rw [hrec]
        | cons q qs =>
          rw [joinDashes] at hrec ⊢
          simp only [List.map_cons, List.flatten_cons] at hrec ⊢
          rw [List.cons_append, hrec]
termination_by l.length
decreasing_by
  all_goals simp_wf
  all_goals try omega
  all_goals (simp only [h2, List.length_cons]; omega)

/-- Counterexample to claim C9 as stated: content with no leading
frontmatter block but two three-dash runs later in the body is not
stored unchanged (modulo trimming) — everything through the second run
is removed. -/
theorem C9_counterexample_mid_body_markers :
    stripFrontmatterS "Hello---world---again" = "again" ∧
    strTrim "Hello---world---again" = "Hello---world---again" ∧
    "again" ≠ "Hello---world---again" := by
  refine ⟨?_, rfl, by decide⟩
  simp [stripFrontmatterS, stripFrontmatter, splitDashes, isDashes3, trimChars,
    joinDashes, List.rdropWhile] <;> rfl

/-- Claim C9 as amended: the stored body is the trimmed text after the
second non-overlapping occurrence of the three-dash marker wherever the
markers occur in the content (they need not form a leading frontmatter
block), and content with fewer than two occurrences is stored whole,
trimmed.  Proper leading frontmatter therefore strips as the spec
describes. -/
theorem C9_frontmatter_after_second_marker :
    (∀ content : List Char,
      stripFrontmatter content =
        trimChars (((dropMarker content).bind dropMarker).getD content)) ∧
    (stripFrontmatterS "---\ntitle: x\n---\nBody text" = "Body text") := by
  refine ⟨?_, ?_⟩
  · intro l
    rcases hd1 : dropMarker l with _ | r1
    · have hs : splitDashes l = [takeMarker l] := by
        rw [splitDashes_structure l, hd1]
      rw [stripFrontmatter]
      simp [hs, hd1, Option.bind]
    · rcases hd2 : dropMarker r1 with _ | r2
      · have hs : splitDashes l = [takeMarker l, takeMarker r1] := by
          rw [splitDashes_structure l, hd1]
          show takeMarker l :: splitDashes r1 = _
          rw [splitDashes_structure r1, hd2]
        rw [stripFrontmatter]
        simp [hs, hd1, hd2, Option.bind]
      · have hs : splitDashes l = takeMarker l :: takeMarker r1 :: splitDashes r2 := by
          rw [splitDashes_structure l, hd1]
          show takeMarker l :: splitDashes r1 = _
          rw [splitDashes_structure r1, hd2]
        have hlen : 3 ≤ (takeMarker l :: takeMarker r1 :: splitDashes r2).length := by
          rcases hq : splitDashes r2 with _ | ⟨a, b⟩
          · exact absurd hq (splitDashes_ne_nil r2)
          · simp [hq]
        rw [stripFrontmatter]
        simp only [hs, hd1, hd2, Option.bind, if_pos hlen, List.drop_succ_cons,
          List.drop_zero, Option.getD_some, joinDashes_splitDashes]
  · simp [stripFrontmatterS, stripFrontmatter, splitDashes, isDashes3, trimChars,
      joinDashes, List.rdropWhile] <;> rfl

/-! Termination of condition evaluation under an acyclic registry. -/

mutual
/-- All template names referenced anywhere inside a block. -/
def tmplRefs : CondBlock → List String
  | .useTemplate n => [n]
  | .allB cs => tmplRefsList cs
  | .anyB cs => tmplRefsList cs
  | .notB c => tmplRefs c
  | .leaf _ _ _ _ => []

/-- All template names referenced by a list of blocks. -/
def tmplRefsList : List CondBlock → List String
  | [] => []
  | c :: cs => tmplRefs c ++ tmplRefsList cs
end

mutual
/-- Nesting depth of a block: the number of recursion levels (fuel
units) its evaluation consumes before any template expansion. -/
def blockDepth : CondBlock → Nat
  | .useTemplate _ => 1
  | .allB cs => 1 + listDepth cs
  | .anyB cs => 1 + listDepth cs
  | .notB c => 1 + blockDepth c
  | .leaf _ _ _ _ => 1

/-- Maximum nesting depth over a list of blocks. -/
def listDepth : List CondBlock → Nat
  | [] => 0
  | c :: cs => max (blockDepth c) (listDepth cs)
end

/-- One past the largest rank of a referenced template, zero when the
block references none. -/
def blockRank (rank : String → Nat) (b : CondBlock) : Nat :=
  (tmplRefs b).foldr (fun n acc => max (rank n + 1) acc) 0

/-- Maximum body depth over the template registry. -/
def registryDepth (tm : Templates) : Nat :=
  tm.foldr (fun kv acc => max (blockDepth kv.2) acc) 0

theorem blockDepth_pos (b : CondBlock) : 1 ≤ blockDepth b := by
  cases b <;> simp [blockDepth]

theorem foldrMax_le (rank : String → Nat) (k : Nat) :
    ∀ l : List String, (∀ n ∈ l, rank n + 1 ≤ k) →
      l.foldr (fun n acc => max (rank n + 1) acc) 0 ≤ k := by
  intro l
  induction l with
  | nil => intro _; simp
  | cons n rest ih =>
    intro h
    simp only [List.foldr_cons, max_le_iff]
    exact ⟨h n (List.mem_cons_self ..),
      ih (fun z hz => h z (List.mem_cons_of_mem _ hz))⟩

theorem le_foldrMax (rank : String → Nat) :
    ∀ (l : List String) (n : String), n ∈ l →
      rank n + 1 ≤ l.foldr (fun n acc => max (rank n + 1) acc) 0 := by
  intro l
  induction l with
  | nil => intro n h; simp at h
  | cons x rest ih =>
    intro n h
    simp only [List.foldr_cons]
    rcases List.mem_cons.mp h with rfl | h2
    · exact le_max_left _ _
    · exact le_trans (ih n h2) (le_max_right _ _)

theorem blockRank_le_of_subset (rank : String → Nat) (b b' : CondBlock)
    (h : ∀ n ∈ tmplRefs b, n ∈ tmplRefs b') :
    blockRank rank b ≤ blockRank rank b' := by
  exact foldrMax_le rank _ _ (fun n hn => le_foldrMax rank _ n (h n hn))

theorem tmplRefs_mem_list : ∀ (cs : List CondBlock) (c : CondBlock), c ∈ cs →
    ∀ n ∈ tmplRefs c, n ∈ tmplRefsList cs := by
  intro cs
  induction cs with
  | nil => intro c h; simp at h
  | cons x rest ih =>
    intro c h n hn
    rw [tmplRefsList, List.mem_append]
    rcases List.mem_cons.mp h with rfl | h2
    · exact Or.inl hn
    · exact Or.inr (ih c h2 n hn)

theorem listDepth_mem : ∀ (cs : List CondBlock) (c : CondBlock), c ∈ cs →
    blockDepth c ≤ listDepth cs := by
  intro cs
  induction cs with
  | nil => intro c h; simp at h
  | cons x rest ih =>
    intro c h
    rw [listDepth]
    rcases List.mem_cons.mp h with rfl | h2
    · exact le_max_left _ _
    · exact le_trans (ih c h2) (le_max_right _ _)

theorem registryDepth_bound (tm : Templates) :
    ∀ (n : String) (t : CondBlock), alistGet tm n = some t →
      blockDepth t ≤ registryDepth tm := by
  induction tm with
  | nil => intro n t h; simp [alistGet] at h
  | cons kv rest ih =>
    intro n t h
    rw [alistGet] at h
    rw [registryDepth, List.foldr_cons]
    by_cases hk : kv.1 == n
    · rw [if_pos hk] at h
      obtain rfl : kv.2 = t := by simpa using h
      exact le_max_left _ _
    · rw [if_neg hk] at h
      exact le_trans (ih n t h) (le_max_right _ _)

theorem evaluateAllWith_total (f : CondBlock → Except Unit Bool) :
    ∀ cs : List CondBlock, (∀ c ∈ cs, ∃ v, f c = .ok v) →
      ∃ v, evaluateAllWith f cs = .ok v := by
  intro cs
  induction cs with
  | nil => intro _; exact ⟨true, rfl⟩
  | cons c rest ih =>
    intro h
    obtain ⟨v, hv⟩ := h c (List.mem_cons_self ..)
    cases v with
    | false => exact ⟨false, by simp [evaluateAllWith, hv, Bind.bind, Except.bind, Pure.pure, Except.pure]⟩
    | true =>
      obtain ⟨w, hw⟩ := ih (fun z hz => h z (List.mem_cons_of_mem _ hz))
      exact ⟨w, by simp [evaluateAllWith, hv, hw, Bind.bind, Except.bind]⟩

theorem evaluateAnyWith_total (f : CondBlock → Except Unit Bool) :
    ∀ cs : List CondBlock, (∀ c ∈ cs, ∃ v, f c = .ok v) →
      ∃ v, evaluateAnyWith f cs = .ok v := by
  intro cs
  induction cs with
  | nil => intro _; exact ⟨false, rfl⟩
  | cons c rest ih =>
    intro h
    obtain ⟨v, hv⟩ := h c (List.mem_cons_self ..)
    cases v with
    | true =>
      exact ⟨true, by
        simp [evaluateAnyWith, hv, Bind.bind, Except.bind, Pure.pure, Except.pure]⟩
    | false =>
      obtain ⟨w, hw⟩ := ih (fun z hz => h z (List.mem_cons_of_mem _ hz))
      exact ⟨w, by simp [evaluateAnyWith, hv, hw, Bind.bind, Except.bind]⟩

/-- Claim C10: with an acyclic template registry — witnessed by a rank
function that strictly drops from every template to each template its
body references — condition evaluation is total: once the fuel reaches
the block's nesting depth plus a rank-derived bound, the evaluator
returns a boolean and never the exception marker.  The code has no
runtime cycle check, so acyclicity is a genuine precondition (on a cycle
the fuel — Python's recursion limit — runs out instead). -/
theorem C10_acyclic_evaluation_total :
    ∀ (tm : Templates) (context : Ctx) (ds : DataSources)
      (rank : String → Nat),
      (∀ n t, alistGet tm n = some t →
        ∀ n2 ∈ tmplRefs t, rank n2 < rank n) →
      ∀ (fuel : Nat) (b : CondBlock),
        blockDepth b + blockRank rank b * (1 + registryDepth tm) ≤ fuel →
        ∃ v : Bool, evaluateBlock tm context ds fuel b = .ok v := by
  intro tm context ds rank hrank fuel
  induction fuel using Nat.strong_induction_on with
  | _ fuel ih =>
    intro b hfuel
    obtain ⟨fuel0, rfl⟩ : ∃ f0, fuel = f0 + 1 := by
      have hd := blockDepth_pos b
      cases fuel with
      | zero => omega
      | succ f0 => exact ⟨f0, rfl⟩
    have hstep : fuel0 < fuel0 + 1 := Nat.lt_succ_self _
    cases b with
    | useTemplate name =>
      rw [evaluateBlock]
      cases ht : alistGet tm name with
      | none => exact ⟨false, rfl⟩
      | some t =>
        apply ih fuel0 hstep t
        have hdt : blockDepth t ≤ registryDepth tm :=
          registryDepth_bound tm name t ht
        have hrt : blockRank rank t ≤ rank name := by
          apply foldrMax_le
          intro n2 hn2
          exact hrank name t ht n2 hn2
        have hmul : blockRank rank t * (1 + registryDepth tm) ≤
            rank name * (1 + registryDepth tm) :=
          Nat.mul_le_mul_right _ hrt
        have hA : blockRank rank (.useTemplate name) = max (rank name + 1) 0 := rfl
        rw [hA] at hfuel
        simp only [blockDepth] at hfuel
        have hexp : max (rank name + 1) 0 = rank name + 1 := by omega
        rw [hexp, Nat.succ_mul] at hfuel
        omega
    | allB cs =>
      rw [evaluateBlock]
      apply evaluateAllWith_total
      intro c hc
      apply ih fuel0 hstep c
      have hdc : blockDepth c ≤ listDepth cs := listDepth_mem cs c hc
      have hrc : blockRank rank c ≤ blockRank rank (.allB cs) :=
        blockRank_le_of_subset rank c _ (fun n hn => tmplRefs_mem_list cs c hc n hn)
      have hmul : blockRank rank c * (1 + registryDepth tm) ≤
          blockRank rank (.allB cs) * (1 + registryDepth tm) :=
        Nat.mul_le_mul_right _ hrc
      simp only [blockDepth] at hfuel
      omega
    | anyB cs =>
      rw [evaluateBlock]
      apply evaluateAnyWith_total
      intro c hc
      apply ih fuel0 hstep c
      have hdc : blockDepth c ≤ listDepth cs := listDepth_mem cs c hc
      have hrc : blockRank rank c ≤ blockRank rank (.anyB cs) :=
        blockRank_le_of_subset rank c _ (fun n hn => tmplRefs_mem_list cs c hc n hn)
      have hmul : blockRank rank c * (1 + registryDepth tm) ≤
          blockRank rank (.anyB cs) * (1 + registryDepth tm) :=
        Nat.mul_le_mul_right _ hrc
      simp only [blockDepth] at hfuel
      omega
    | notB c =>
      rw [evaluateBlock]
      have hrc : blockRank rank c = blockRank rank (.notB c) := rfl
      obtain ⟨v, hv⟩ := ih fuel0 hstep c (by
        simp only [blockDepth] at hfuel
        rw [← hrc] at hfuel
        omega)
      exact ⟨!v, by simp [hv, Bind.bind, Except.bind, Pure.pure, Except.pure]⟩
    | leaf condOp condSource condField condVal =>
      exact ⟨evaluateCondition context ds condOp condSource condField condVal, rfl⟩

/-- Witness for claim C10 at a concrete acyclic registry: template A
references template B, B is a plain conjunction, and evaluation of
use_template A returns a boolean with the computed fuel bound. -/
theorem C10_acyclic_evaluation_total_witness :
    ∃ v : Bool, evaluateBlock [("A", .useTemplate "B"), ("B", .allB [])]
      [] [] 5 (.useTemplate "A") = .ok v := by
  apply C10_acyclic_evaluation_total
    [("A", .useTemplate "B"), ("B", .allB [])] [] []
    (fun n => if n = "A" then 1 else 0)
  · intro n t h n2 h2
    by_cases h1 : ("A" : String) == n
    · have hn : n = "A" := by
        have := (beq_iff_eq ..).mp h1
        exact this.symm
      subst hn
      simp [alistGet] at h
      subst h
      simp only [tmplRefs, List.mem_singleton] at h2
      subst h2
      decide
    · by_cases hb : ("B" : String) == n
      · have hn : n = "B" := by
          have := (beq_iff_eq ..).mp hb
          exact this.symm
        subst hn
        simp [alistGet] at h
        subst h
        simp [tmplRefs, tmplRefsList] at h2
      · simp [alistGet, h1, hb] at h
  · decide

end GandA
